import Mathlib

/-!
Verification of the dunstan-rules_engine document-processing pipeline.

This file shallowly embeds the parts of the repository that the verified
properties talk about:

* `src/services/ocr-web/app/main.py` — `PDFChunker.process`, the
  `ProcessingManager` job orchestrator (`create_job`, `process_chunk`,
  `finalize_job`), the `temporary_directory` context manager, the
  `/upload` handler and the `/status` and `/result` readers;
* `src/services/ocr-engine/app/circuit_breaker.py` — the `CircuitBreaker`
  class and the `circuit_breaker` decorator;
* `src/services/ocr-engine/app/ocr.py` — `OCRProcessor.process_page`,
  `process_batch`, `process_document` and `calculate_confidence`;
* `src/services/ocr-engine/app/routes.py` — the progress store mutated by
  `/extract` and read by `/progress/{job_id}`.

Machine integers do not occur on any modelled path (Python integers are
unbounded), so numbers are `Nat`/`ℚ`.  Wall-clock times are modelled as
`Nat` instants passed explicitly to the functions that read `time.time()`.
Filesystem paths are modelled as lists of path components
(`os.path.join` is `++`).  Code that raises is modelled with
`Option`/`Except`.
-/

/-- A filesystem path, as the list of its components
(`os.path.join(a, b, c)` becomes `[a, b, c]`, or `dir ++ [b, c]`). -/
abbrev FsPath := List String

/-- One element of `PDFChunker.chunks`
(`src/services/ocr-web/app/main.py:110-116,155-161`): the dict
`{'id', 'path', 'start_page', 'end_page', 'total_pages'}` with a 1-based
inclusive page range. -/
structure Chunk where
  id : String
  path : FsPath
  start_page : Nat
  end_page : Nat
  total_pages : Nat
deriving DecidableEq, Repr

/-- The `while start_page < self.total_pages` loop of `PDFChunker.process`
(`main.py:120-166`), on its success path (enough disk space, no oversized
chunk, so neither `raise` fires).  Arguments: `ids` enumerates the
`uuid.uuid4()` draws (the `i`-th call yields `ids i`), `chunk_dir` is
`self.chunk_dir`, then `self.total_pages`, `self.chunk_size`,
`self.overlap`; the loop state is the uuid counter `i`, `start_page`
(0-based, as in the source) and `nonempty = (len(self.chunks) > 0)`.
Each iteration takes `end_page = min(start_page + chunk_size, total_pages)`,
breaks when `end_page - start_page < 2 and len(self.chunks) > 0`
(`main.py:129-130`), otherwise emits the chunk dict of `main.py:155-161`
(with the source's 1-based `start_page + 1`) and advances `start_page` by
`max(1, chunk_size - overlap)` (`main.py:165-166`). -/
def chunkLoop (ids : Nat → String) (chunk_dir : FsPath)
    (total_pages chunk_size overlap : Nat) (i start_page : Nat)
    (nonempty : Bool) : List Chunk :=
  if _h : start_page < total_pages then
    let end_page := min (start_page + chunk_size) total_pages
    if end_page - start_page < 2 ∧ nonempty then
      []
    else
      { id := ids i,
        path := chunk_dir ++ [ids i, "chunk.pdf"],
        start_page := start_page + 1,
        end_page := end_page,
        total_pages := end_page - start_page } ::
      chunkLoop ids chunk_dir total_pages chunk_size overlap (i + 1)
        (start_page + max 1 (chunk_size - overlap)) true
  else
    []
termination_by total_pages - start_page
decreasing_by
  have h1 : 1 ≤ max 1 (chunk_size - overlap) := le_max_left 1 _
  omega

/-- Model of `PDFChunker.process` (`main.py:88-173`) on its success path: a PDF with
`total_pages ≤ chunk_size` yields the single whole-document chunk of
`main.py:96-117`; otherwise the sliding-window loop runs
(`chunkLoop` above). -/
def chunkerProcess (ids : Nat → String) (chunk_dir : FsPath)
    (total_pages chunk_size overlap : Nat) : List Chunk :=
  if total_pages ≤ chunk_size then
    [{ id := ids 0,
       path := chunk_dir ++ [ids 0, "chunk.pdf"],
       start_page := 1,
       end_page := total_pages,
       total_pages := total_pages }]
  else
    chunkLoop ids chunk_dir total_pages chunk_size overlap 0 0 false

example :
    ((chunkerProcess (fun _ => "c") ["tmp"] 45 20 2).map
      (fun c => (c.start_page, c.end_page))) = [(1, 20), (19, 38), (37, 45)] := by
  rw [chunkerProcess]
  norm_num
  rw [chunkLoop]
  norm_num
  rw [chunkLoop]
  norm_num
  rw [chunkLoop]
  norm_num
  rw [chunkLoop]
  norm_num

example :
    ((chunkerProcess (fun _ => "c") ["tmp"] 2 1 0).map
      (fun c => (c.start_page, c.end_page))) = [(1, 1)] := by
  rw [chunkerProcess]
  norm_num
  rw [chunkLoop]
  norm_num
  rw [chunkLoop]
  norm_num

/-- Every chunk emitted by `chunkLoop` from position `start_page` has its
1-based start at or after `start_page + 1`. -/
theorem chunkLoop_start_ge (ids : Nat → String) (dir : FsPath)
    (N cs ov i start : Nat) (b : Bool) :
    ∀ c ∈ chunkLoop ids dir N cs ov i start b, start + 1 ≤ c.start_page := by
  intro c hc
  rw [chunkLoop] at hc
  by_cases h1 : start < N
  · rw [dif_pos h1] at hc
    by_cases h2 : min (start + cs) N - start < 2 ∧ b = true
    · rw [if_pos h2] at hc
      exact absurd hc (List.not_mem_nil c)
    · rw [if_neg h2] at hc
      rcases List.mem_cons.mp hc with h | h
      · subst h
        exact Nat.le_refl _
      · have hrec := chunkLoop_start_ge ids dir N cs ov (i + 1)
          (start + max 1 (cs - ov)) true c h
        have hstep : 1 ≤ max 1 (cs - ov) := le_max_left 1 _
        omega
  · rw [dif_neg h1] at hc
    exact absurd hc (List.not_mem_nil c)
termination_by N - start
decreasing_by
  have hstep : 1 ≤ max 1 (cs - ov) := le_max_left 1 _
  omega

/-- The 1-based chunk start pages produced by `chunkLoop` are pairwise
strictly increasing: the loop variable `start_page` strictly advances by
`max(1, chunk_size - overlap) ≥ 1` at every iteration
(`main.py:165-166`). -/
theorem chunkLoop_starts_pairwise (ids : Nat → String) (dir : FsPath)
    (N cs ov i start : Nat) (b : Bool) :
    ((chunkLoop ids dir N cs ov i start b).map Chunk.start_page).Pairwise (· < ·) := by
  rw [chunkLoop]
  by_cases h1 : start < N
  · rw [dif_pos h1]
    by_cases h2 : min (start + cs) N - start < 2 ∧ b = true
    · rw [if_pos h2]
      simp
    · rw [if_neg h2]
      rw [List.map_cons, List.pairwise_cons]
      constructor
      · intro a ha
        rcases List.mem_map.mp ha with ⟨c, hc, hce⟩
        have hge := chunkLoop_start_ge ids dir N cs ov (i + 1)
          (start + max 1 (cs - ov)) true c hc
        have hstep : 1 ≤ max 1 (cs - ov) := le_max_left 1 _
        have hhead : (⟨ids i, dir ++ [ids i, "chunk.pdf"], start + 1,
            min (start + cs) N, min (start + cs) N - start⟩ : Chunk).start_page
            = start + 1 := rfl
        omega
      · exact chunkLoop_starts_pairwise ids dir N cs ov (i + 1)
          (start + max 1 (cs - ov)) true
  · rw [dif_neg h1]
    simp
termination_by N - start
decreasing_by
  have hstep : 1 ≤ max 1 (cs - ov) := le_max_left 1 _
  omega

/-- The loop `chunkLoop` emits at most one chunk per remaining page: the loop
variable strictly increases and stays below `total_pages`, so the loop
(and with it `PDFChunker.process`) always terminates, with at most
`total_pages - start_page` iterations. -/
theorem chunkLoop_length_le (ids : Nat → String) (dir : FsPath)
    (N cs ov i start : Nat) (b : Bool) :
    (chunkLoop ids dir N cs ov i start b).length ≤ N - start := by
  rw [chunkLoop]
  by_cases h1 : start < N
  · rw [dif_pos h1]
    by_cases h2 : min (start + cs) N - start < 2 ∧ b = true
    · rw [if_pos h2]
      simp
    · rw [if_neg h2]
      rw [List.length_cons]
      have hrec := chunkLoop_length_le ids dir N cs ov (i + 1)
        (start + max 1 (cs - ov)) true
      have hstep : 1 ≤ max 1 (cs - ov) := le_max_left 1 _
      omega
  · rw [dif_neg h1]
    simp
termination_by N - start
decreasing_by
  have hstep : 1 ≤ max 1 (cs - ov) := le_max_left 1 _
  omega

/-- Coverage of the sliding-window loop: with `chunk_size ≥ 2` and
`overlap ≥ 1` the early-exit guard of `main.py:129-130` can only fire when
the page it skips is already covered by the previous chunk, so every page
strictly after the current window start is covered by some emitted chunk.
The flag hypothesis mirrors the loop entry (`b = false` on the first
iteration, and once `b = true` there are at least two remaining pages). -/
theorem chunkLoop_covers (ids : Nat → String) (dir : FsPath)
    (N cs ov : Nat) (hcs : 2 ≤ cs) (hov : 1 ≤ ov) (i start : Nat) (b : Bool)
    (h1 : start < N) (h2 : b = false ∨ start + 2 ≤ N) (p : Nat)
    (hp1 : start < p) (hp2 : p ≤ N) :
    ∃ c ∈ chunkLoop ids dir N cs ov i start b,
      c.start_page ≤ p ∧ p ≤ c.end_page := by
  rw [chunkLoop, dif_pos h1]
  have hnobreak : ¬ (min (start + cs) N - start < 2 ∧ b = true) := by
    rcases h2 with h2 | h2
    · subst h2
      simp
    · intro hk
      omega
  rw [if_neg hnobreak]
  by_cases hpe : p ≤ min (start + cs) N
  · refine ⟨_, List.mem_cons_self _ _, ?_, ?_⟩
    · show start + 1 ≤ p
      omega
    · show p ≤ min (start + cs) N
      exact hpe
  · have hstep : 1 ≤ max 1 (cs - ov) := le_max_left 1 _
    have hstep2 : max 1 (cs - ov) + 1 ≤ cs := by
      omega
    have hcase : start + cs < p := by
      omega
    obtain ⟨c, hc, hcp⟩ := chunkLoop_covers ids dir N cs ov hcs hov (i + 1)
      (start + max 1 (cs - ov)) true (by omega) (by omega) p (by omega) hp2
    exact ⟨c, List.mem_cons_of_mem _ hc, hcp⟩
termination_by N - start
decreasing_by
  have hstep : 1 ≤ max 1 (cs - ov) := le_max_left 1 _
  omega

/-- Page-count total of the sliding-window loop: with `chunk_size ≥ 2` and
`overlap ≥ 1` the emitted chunks carry at least one `total_pages` entry per
remaining page, so their sum is at least `total_pages - start_page`. -/
theorem chunkLoop_sum_ge (ids : Nat → String) (dir : FsPath)
    (N cs ov : Nat) (hcs : 2 ≤ cs) (hov : 1 ≤ ov) (i start : Nat) (b : Bool)
    (h1 : start < N) (h2 : b = false ∨ start + 2 ≤ N) :
    N - start ≤
      ((chunkLoop ids dir N cs ov i start b).map Chunk.total_pages).sum := by
  rw [chunkLoop, dif_pos h1]
  have hnobreak : ¬ (min (start + cs) N - start < 2 ∧ b = true) := by
    rcases h2 with h2 | h2
    · subst h2
      simp
    · intro hk
      omega
  rw [if_neg hnobreak]
  rw [List.map_cons, List.sum_cons]
  have hstep : 1 ≤ max 1 (cs - ov) := le_max_left 1 _
  have hstep2 : max 1 (cs - ov) + 1 ≤ cs := by omega
  have hhead : (⟨ids i, dir ++ [ids i, "chunk.pdf"], start + 1,
      min (start + cs) N, min (start + cs) N - start⟩ : Chunk).total_pages
      = min (start + cs) N - start := rfl
  by_cases hnext : start + max 1 (cs - ov) < N
  · by_cases hnext2 : start + max 1 (cs - ov) + 2 ≤ N
    · have hrec := chunkLoop_sum_ge ids dir N cs ov hcs hov (i + 1)
        (start + max 1 (cs - ov)) true hnext (Or.inr hnext2)
      omega
    · omega
  · omega
termination_by N - start
decreasing_by
  have hstep : 1 ≤ max 1 (cs - ov) := le_max_left 1 _
  omega

/-- Claim C1, counterexample. The claim quantifies over every
`chunkSize ≥ 1` and `overlap ≥ 0`.  For a 2-page PDF with `chunkSize = 1`
and `overlap = 0`, `PDFChunker.process` emits only the chunk `[1, 1]`:
the second window `[2, 2]` has a single page, so the guard at
`main.py:129-130` breaks out of the loop and page 2 is covered by no
chunk; the chunks' page counts sum to `1 < 2`. -/
theorem C1_counterexample :
    ¬ (∃ c ∈ chunkerProcess (fun _ => "c") ["tmp"] 2 1 0,
        c.start_page ≤ 2 ∧ 2 ≤ c.end_page) ∧
    ((chunkerProcess (fun _ => "c") ["tmp"] 2 1 0).map Chunk.total_pages).sum
      = 1 := by
  have h : chunkerProcess (fun _ => "c") ["tmp"] 2 1 0
      = [⟨"c", ["tmp", "c", "chunk.pdf"], 1, 1, 1⟩] := by
    rw [chunkerProcess]
    norm_num
    rw [chunkLoop]
    norm_num
    rw [chunkLoop]
    norm_num
  rw [h]
  decide

/-- Claim C1 (amended). For every readable PDF and every `chunkSize ≥ 2` and
`overlap ≥ 1` (the counterexample `chunkSize = 1`, `overlap = 0` forces
both bounds: with `overlap = 0` or `chunkSize = 1` the break at
`main.py:129-130` can drop a final one-page window that no earlier chunk
reaches), the chunks returned by `Split` cover every page of the
document — each page `1..total_pages` lies in at least one chunk's
`[start_page, end_page]` range — and the sum of the chunks' page counts
is `≥ total_pages`. -/
theorem C1_chunks_cover_document (ids : Nat → String) (dir : FsPath)
    (N cs ov : Nat) (hcs : 2 ≤ cs) (hov : 1 ≤ ov) :
    (∀ p, 1 ≤ p → p ≤ N →
        ∃ c ∈ chunkerProcess ids dir N cs ov,
          c.start_page ≤ p ∧ p ≤ c.end_page)
    ∧ N ≤ ((chunkerProcess ids dir N cs ov).map Chunk.total_pages).sum := by
  constructor
  · intro p hp1 hp2
    rw [chunkerProcess]
    by_cases hsmall : N ≤ cs
    · rw [if_pos hsmall]
      refine ⟨_, List.mem_cons_self _ _, ?_, ?_⟩
      · show 1 ≤ p
        exact hp1
      · show p ≤ N
        exact hp2
    · rw [if_neg hsmall]
      exact chunkLoop_covers ids dir N cs ov hcs hov 0 0 false (by omega)
        (Or.inl rfl) p (by omega) hp2
  · rw [chunkerProcess]
    by_cases hsmall : N ≤ cs
    · rw [if_pos hsmall]
      simp
    · rw [if_neg hsmall]
      have h := chunkLoop_sum_ge ids dir N cs ov hcs hov 0 0 false (by omega)
        (Or.inl rfl)
      omega

/-- Witness for `C1_chunks_cover_document`: the spec's own worked example,
a 45-page document with `chunkSize = 20`, `overlap = 2`. -/
theorem C1_witness :
    (∀ p, 1 ≤ p → p ≤ 45 →
        ∃ c ∈ chunkerProcess (fun _ => "c") ["tmp"] 45 20 2,
          c.start_page ≤ p ∧ p ≤ c.end_page)
    ∧ 45 ≤ ((chunkerProcess (fun _ => "c") ["tmp"] 45 20 2).map
        Chunk.total_pages).sum :=
  C1_chunks_cover_document (fun _ => "c") ["tmp"] 45 20 2 (by norm_num)
    (by norm_num)

/-- Claim C8. For every readable PDF and every parameter pair with
`overlap ≥ chunkSize`, `Split` terminates — the loop runs at most one
iteration per page, so at most `total_pages` chunks are emitted — and the
chunk start pages are strictly increasing, because the next window start
advances by `max(1, chunkSize - overlap) ≥ 1`. -/
theorem C8_chunker_strictly_advances (ids : Nat → String) (dir : FsPath)
    (N cs ov : Nat) (hN : 1 ≤ N) (hov : cs ≤ ov) :
    ((chunkerProcess ids dir N cs ov).map Chunk.start_page).Pairwise (· < ·)
    ∧ (chunkerProcess ids dir N cs ov).length ≤ N := by
  rw [chunkerProcess]
  by_cases hsmall : N ≤ cs
  · rw [if_pos hsmall]
    constructor
    · simp
    · simpa using hN
  · rw [if_neg hsmall]
    refine ⟨chunkLoop_starts_pairwise ids dir N cs ov 0 0 false, ?_⟩
    have h := chunkLoop_length_le ids dir N cs ov 0 0 false
    omega

/-- Witness for `C8_chunker_strictly_advances`: a 5-page document with
`chunkSize = 2`, `overlap = 3` (overlap exceeding the chunk size). -/
theorem C8_witness :
    ((chunkerProcess (fun _ => "c") ["tmp"] 5 2 3).map
        Chunk.start_page).Pairwise (· < ·)
    ∧ (chunkerProcess (fun _ => "c") ["tmp"] 5 2 3).length ≤ 5 :=
  C8_chunker_strictly_advances (fun _ => "c") ["tmp"] 5 2 3 (by norm_num)
    (by norm_num)

/-- The three states of `CircuitBreaker.state`
(`src/services/ocr-engine/app/circuit_breaker.py:25`).  The source's
string `"open"` is a Lean keyword, so the constructor is named
`opened`. -/
inductive CBState
  | closed
  | opened
  | halfOpen
deriving DecidableEq, Repr

/-- The `CircuitBreaker` instance state (`circuit_breaker.py:13-26`):
the three config values passed to `__init__` and the mutable fields
`failures`, `last_failure_time` and `state`.  `time.time()` readings are
modelled as `Nat` instants. -/
structure CircuitBreaker where
  failure_threshold : Nat
  reset_timeout : Nat
  half_open_timeout : Nat
  failures : Nat
  last_failure_time : Nat
  state : CBState
deriving DecidableEq, Repr

/-- Model of `CircuitBreaker.__init__` (`circuit_breaker.py:13-26`): zero failures,
`last_failure_time = 0`, state `closed`. -/
def CircuitBreaker.init (ft rt hot : Nat) : CircuitBreaker :=
  { failure_threshold := ft, reset_timeout := rt, half_open_timeout := hot,
    failures := 0, last_failure_time := 0, state := .closed }

/-- Model of `CircuitBreaker.can_execute` (`circuit_breaker.py:28-46`) at instant
`now`: returns the admission decision and the (possibly mutated) breaker —
in `open`, once `reset_timeout` has elapsed since `last_failure_time`, the
method itself flips the state to `half-open` and admits the call. -/
def CircuitBreaker.can_execute (cb : CircuitBreaker) (now : Nat) :
    Bool × CircuitBreaker :=
  match cb.state with
  | .closed => (true, cb)
  | .opened =>
    if cb.reset_timeout ≤ now - cb.last_failure_time then
      (true, { cb with state := .halfOpen })
    else
      (false, cb)
  | .halfOpen =>
    if cb.half_open_timeout ≤ now - cb.last_failure_time then (true, cb)
    else (false, cb)

/-- Model of `CircuitBreaker.record_failure` (`circuit_breaker.py:48-58`) at instant
`now`: increment `failures`, stamp `last_failure_time`, and set the state
to `open` when `failures >= failure_threshold`. -/
def CircuitBreaker.record_failure (cb : CircuitBreaker) (now : Nat) :
    CircuitBreaker :=
  if cb.failure_threshold ≤ cb.failures + 1 then
    { cb with failures := cb.failures + 1, last_failure_time := now,
              state := .opened }
  else
    { cb with failures := cb.failures + 1, last_failure_time := now }

/-- Model of `CircuitBreaker.record_success` (`circuit_breaker.py:60-66`): reset
`failures` to zero and close the circuit. -/
def CircuitBreaker.record_success (cb : CircuitBreaker) : CircuitBreaker :=
  { cb with failures := 0, state := .closed }

/-- Outcome of the wrapped downstream call inside the `circuit_breaker`
decorator (`circuit_breaker.py:74-85`): the awaited function either
returns or raises. -/
inductive CallOutcome
  | success
  | failure
deriving DecidableEq, Repr

/-- One call through the `circuit_breaker` decorator
(`circuit_breaker.py:68-88`) at instant `now`: if `can_execute` denies,
the call is rejected (`Service temporarily unavailable`) and nothing else
runs; otherwise the wrapped call runs and its outcome is recorded.
Returns the breaker afterwards and whether the call was admitted. -/
def CircuitBreaker.call (cb : CircuitBreaker) (now : Nat) (o : CallOutcome) :
    CircuitBreaker × Bool :=
  let d := cb.can_execute now
  if d.1 then
    match o with
    | .success => (d.2.record_success, true)
    | .failure => (d.2.record_failure now, true)
  else
    (d.2, false)

/-- The breaker states reachable from a freshly constructed
`CircuitBreaker(ft, rt, hot)` by any sequence of decorated calls at any
instants. -/
inductive CircuitBreaker.Reachable : CircuitBreaker → Prop
  | init (ft rt hot : Nat) : Reachable (CircuitBreaker.init ft rt hot)
  | step (cb : CircuitBreaker) (now : Nat) (o : CallOutcome) :
      Reachable cb → Reachable (cb.call now o).1


/-- One decorated call preserves the failure-count bound on non-closed
states: the state only leaves `closed` when `record_failure` reaches the
threshold, and nothing on the `open → half-open` path resets the
counter. -/
theorem CircuitBreaker.call_preserves_failures_ge (cb : CircuitBreaker)
    (now : Nat) (o : CallOutcome)
    (ih : cb.state ≠ .closed → cb.failure_threshold ≤ cb.failures) :
    (cb.call now o).1.state ≠ .closed →
      (cb.call now o).1.failure_threshold ≤ (cb.call now o).1.failures := by
  rcases o <;> rcases hcb : cb.state <;>
    simp only [CircuitBreaker.call, CircuitBreaker.can_execute, hcb,
      CircuitBreaker.record_success, CircuitBreaker.record_failure] <;>
    split_ifs <;>
    simp_all <;>
    omega

/-- Reachable non-closed breakers hold at least `failure_threshold`
recorded failures. -/
theorem CircuitBreaker.reachable_failures_ge (cb : CircuitBreaker)
    (h : cb.Reachable) :
    cb.state ≠ .closed → cb.failure_threshold ≤ cb.failures := by
  induction h with
  | init ft rt hot =>
    intro hs
    exact absurd rfl hs
  | step cb now o hr ih =>
    exact CircuitBreaker.call_preserves_failures_ge cb now o ih

/-- Claim C3. The circuit breaker state machine, from the initial closed
state and for every sequence of call outcomes: in `closed`, a success
resets the consecutive-failure count, and the failure that brings the
count to `failure_threshold` transitions to `open`, stamping
`last_failure_time` (a failure below the threshold stays `closed` and
just increments the count); in `open`, every call is rejected unchanged
until `reset_timeout` has elapsed since `last_failure_time`, after which
`can_execute` flips the state to `half-open` (and admits the call); in
`half-open`, a completed (admitted) call's success transitions to
`closed` with the failure count reset, and a failure transitions back to
`open` — the latter because reachable non-closed states already hold at
least `failure_threshold` failures. -/
theorem C3_circuit_breaker_state_machine (cb : CircuitBreaker)
    (h : cb.Reachable) (now : Nat) :
    (cb.state = .closed →
      ((cb.call now .success).2 = true
        ∧ (cb.call now .success).1.failures = 0
        ∧ (cb.call now .success).1.state = .closed)
      ∧ ((cb.call now .failure).2 = true
        ∧ (cb.failure_threshold ≤ cb.failures + 1 →
            (cb.call now .failure).1.state = .opened
            ∧ (cb.call now .failure).1.last_failure_time = now)
        ∧ (cb.failures + 1 < cb.failure_threshold →
            (cb.call now .failure).1.state = .closed
            ∧ (cb.call now .failure).1.failures = cb.failures + 1)))
    ∧ (cb.state = .opened →
      (now - cb.last_failure_time < cb.reset_timeout →
        ∀ o, cb.call now o = (cb, false))
      ∧ (cb.reset_timeout ≤ now - cb.last_failure_time →
        (cb.can_execute now).1 = true
          ∧ (cb.can_execute now).2.state = .halfOpen))
    ∧ (cb.state = .halfOpen →
        cb.half_open_timeout ≤ now - cb.last_failure_time →
        ((cb.call now .success).1.state = .closed
          ∧ (cb.call now .success).1.failures = 0)
        ∧ (cb.call now .failure).1.state = .opened) := by
  have hinv := CircuitBreaker.reachable_failures_ge cb h
  refine ⟨fun hcb => ⟨?_, ?_, ?_, ?_⟩, fun hcb => ⟨fun ht o => ?_, fun ht => ?_⟩,
    fun hcb ht => ⟨?_, ?_⟩⟩
  · simp [CircuitBreaker.call, CircuitBreaker.can_execute, hcb,
      CircuitBreaker.record_success]
  · simp [CircuitBreaker.call, CircuitBreaker.can_execute, hcb,
      CircuitBreaker.record_failure]
  · intro hth
    simp [CircuitBreaker.call, CircuitBreaker.can_execute, hcb,
      CircuitBreaker.record_failure]
    split_ifs <;> simp_all
  · intro hth
    simp [CircuitBreaker.call, CircuitBreaker.can_execute, hcb,
      CircuitBreaker.record_failure]
    split_ifs <;> simp_all <;> omega
  · rcases o <;>
      simp [CircuitBreaker.call, CircuitBreaker.can_execute, hcb] <;>
      split_ifs <;> simp_all <;> omega
  · simp [CircuitBreaker.can_execute, hcb]
    split_ifs <;> simp_all
  · simp [CircuitBreaker.call, CircuitBreaker.can_execute, hcb,
      CircuitBreaker.record_success]
    split_ifs <;> simp_all
  · have hf := hinv (by simp [hcb])
    simp [CircuitBreaker.call, CircuitBreaker.can_execute, hcb,
      CircuitBreaker.record_failure]
    split_ifs <;> simp_all <;> omega

/-- Witness for `C3_circuit_breaker_state_machine`: the freshly
constructed breaker `CircuitBreaker(1, 5, 5)` probed at instant 0. -/
theorem C3_witness :
    ((CircuitBreaker.init 1 5 5).state = .closed →
      (((CircuitBreaker.init 1 5 5).call 0 .success).2 = true
        ∧ ((CircuitBreaker.init 1 5 5).call 0 .success).1.failures = 0
        ∧ ((CircuitBreaker.init 1 5 5).call 0 .success).1.state = .closed)
      ∧ (((CircuitBreaker.init 1 5 5).call 0 .failure).2 = true
        ∧ ((CircuitBreaker.init 1 5 5).failure_threshold ≤
              (CircuitBreaker.init 1 5 5).failures + 1 →
            ((CircuitBreaker.init 1 5 5).call 0 .failure).1.state = .opened
            ∧ ((CircuitBreaker.init 1 5 5).call 0
                .failure).1.last_failure_time = 0)
        ∧ ((CircuitBreaker.init 1 5 5).failures + 1 <
              (CircuitBreaker.init 1 5 5).failure_threshold →
            ((CircuitBreaker.init 1 5 5).call 0 .failure).1.state = .closed
            ∧ ((CircuitBreaker.init 1 5 5).call 0 .failure).1.failures =
                (CircuitBreaker.init 1 5 5).failures + 1)))
    ∧ ((CircuitBreaker.init 1 5 5).state = .opened →
      (0 - (CircuitBreaker.init 1 5 5).last_failure_time <
          (CircuitBreaker.init 1 5 5).reset_timeout →
        ∀ o, (CircuitBreaker.init 1 5 5).call 0 o =
          (CircuitBreaker.init 1 5 5, false))
      ∧ ((CircuitBreaker.init 1 5 5).reset_timeout ≤
            0 - (CircuitBreaker.init 1 5 5).last_failure_time →
        ((CircuitBreaker.init 1 5 5).can_execute 0).1 = true
          ∧ ((CircuitBreaker.init 1 5 5).can_execute 0).2.state = .halfOpen))
    ∧ ((CircuitBreaker.init 1 5 5).state = .halfOpen →
        (CircuitBreaker.init 1 5 5).half_open_timeout ≤
          0 - (CircuitBreaker.init 1 5 5).last_failure_time →
        (((CircuitBreaker.init 1 5 5).call 0 .success).1.state = .closed
          ∧ ((CircuitBreaker.init 1 5 5).call 0 .success).1.failures = 0)
        ∧ ((CircuitBreaker.init 1 5 5).call 0 .failure).1.state = .opened) :=
  C3_circuit_breaker_state_machine (CircuitBreaker.init 1 5 5)
    (CircuitBreaker.Reachable.init 1 5 5) 0

/-- Claim C10, counterexample. The claim says at most one probing call is
admitted in `half-open` before that probe resolves.  In the code,
`can_execute` in `half-open` (`circuit_breaker.py:43-46`) merely compares
elapsed time and mutates nothing, so it admits every caller once
`half_open_timeout` has elapsed.  Concretely, for `CircuitBreaker(1, 5, 5)`:
a failure at instant 0 opens the circuit; a call arriving at instant 35 is
admitted and flips the state to `half-open`; before that probe completes
(no `record_success`/`record_failure` has run), a second `can_execute` at
instant 35 is admitted as well, the state still `half-open`. -/
theorem C10_counterexample :
    (((CircuitBreaker.init 1 5 5).call 0 .failure).1.state = CBState.opened
    ∧ ((((CircuitBreaker.init 1 5 5).call 0 .failure).1.can_execute 35).1
        = true
    ∧ ((((CircuitBreaker.init 1 5 5).call 0 .failure).1.can_execute 35).2.state
        = CBState.halfOpen
    ∧ (((((CircuitBreaker.init 1 5 5).call 0 .failure).1.can_execute
          35).2.can_execute 35).1 = true
    ∧ ((((CircuitBreaker.init 1 5 5).call 0 .failure).1.can_execute
          35).2.can_execute 35).2.state = CBState.halfOpen))))
    ∧ CircuitBreaker.Reachable ((CircuitBreaker.init 1 5 5).call 0 .failure).1 :=
  ⟨by decide,
   CircuitBreaker.Reachable.step (CircuitBreaker.init 1 5 5) 0 .failure
     (CircuitBreaker.Reachable.init 1 5 5)⟩

/-- Claim C10 (amended). While the circuit breaker is in the half-open
state, a call is admitted exactly when `half_open_timeout` has elapsed
since `last_failure_time`; admission mutates nothing, so the code places
no limit on how many calls are admitted in half-open before the first
probe completes. -/
theorem C10_half_open_admission (cb : CircuitBreaker) (now : Nat)
    (h : cb.state = .halfOpen) :
    ((cb.can_execute now).1 = true ↔
      cb.half_open_timeout ≤ now - cb.last_failure_time)
    ∧ (cb.can_execute now).2 = cb := by
  simp only [CircuitBreaker.can_execute, h]
  split_ifs <;> simp_all

/-- Witness for `C10_half_open_admission`: a half-open breaker with
`half_open_timeout = 5`, last failure at instant 0, probed at
instant 35. -/
theorem C10_witness :
    (((⟨1, 5, 5, 1, 0, .halfOpen⟩ : CircuitBreaker).can_execute 35).1 = true ↔
      (⟨1, 5, 5, 1, 0, .halfOpen⟩ : CircuitBreaker).half_open_timeout ≤
        35 - (⟨1, 5, 5, 1, 0, .halfOpen⟩ : CircuitBreaker).last_failure_time)
    ∧ ((⟨1, 5, 5, 1, 0, .halfOpen⟩ : CircuitBreaker).can_execute 35).2 =
        ⟨1, 5, 5, 1, 0, .halfOpen⟩ :=
  C10_half_open_admission ⟨1, 5, 5, 1, 0, .halfOpen⟩ 35 rfl

/-- The per-page result dict produced by `OCRProcessor.process_page`
(`src/services/ocr-engine/app/ocr.py:54-66`): extracted text, confidence,
1-based page number, and an error message when the page's OCR raised. -/
structure PageResult where
  text : String
  confidence : ℚ
  page : Nat
  error : Option String := none
deriving DecidableEq, Repr

/-- Model of `OCRProcessor.process_page` (`ocr.py:17-66`) on page index `page_num`
(0-based).  The pytesseract interaction (an out-of-scope capability,
`OCRPage(PageImage) -> {text, confidence}`) is abstracted as the oracle
`ocr`: on success (`ocr.py:54-58`) the dict carries the extracted text,
the page's confidence and `page_num + 1`; when the OCR call raises, the
`except` branch (`ocr.py:59-66`) returns empty text, confidence `0`,
`page_num + 1` and the error string, instead of propagating. -/
def process_page (ocr : Nat → Except String (String × ℚ)) (page_num : Nat) :
    PageResult :=
  match ocr page_num with
  | .ok r => { text := r.1, confidence := r.2, page := page_num + 1 }
  | .error e =>
    { text := "", confidence := 0, page := page_num + 1, error := some e }

/-- Model of `OCRProcessor.process_batch` (`ocr.py:68-94`): pages
`batch_start .. min(batch_start + batch_size, len(images)) - 1` are
dispatched and `asyncio.gather` returns their results in task-submission
order, regardless of completion order. -/
def process_batch (ocr : Nat → Except String (String × ℚ))
    (n batch_start batch_size : Nat) : List PageResult :=
  (List.range' batch_start (min (batch_start + batch_size) n - batch_start)).map
    (process_page ocr)

/-- The `for i in range(0, len(images), batch_size)` loop of
`OCRProcessor.process_document` (`ocr.py:105-112`), accumulating batch
results in order.  `fuel` bounds the iteration count purely to satisfy
structural recursion; since `i` advances by `batch_size ≥ 1` each
iteration, `fuel = n` always suffices (see `batch_loop_eq`). -/
def batch_loop (ocr : Nat → Except String (String × ℚ))
    (n batch_size : Nat) : Nat → Nat → List PageResult
  | 0, _ => []
  | fuel + 1, i =>
    if i < n then
      process_batch ocr n i batch_size ++
        batch_loop ocr n batch_size fuel (i + batch_size)
    else
      []

/-- Model of `OCRProcessor.process_document` (`ocr.py:96-116`) over `n` page
images: run the batch loop, then `results.sort(key=lambda x: x['page'])`
(Python's stable sort, modelled by `List.mergeSort`). -/
def process_document (ocr : Nat → Except String (String × ℚ))
    (n batch_size : Nat) : List PageResult :=
  (batch_loop ocr n batch_size n 0).mergeSort (fun a b => a.page ≤ b.page)

/-- Model of `OCRProcessor.calculate_confidence` (`ocr.py:118-126`): `0.0` on an
empty result list, otherwise the mean of the page confidences scaled
down — `min(avg_confidence / 2, 100)`. -/
def calculate_confidence (results : List PageResult) : ℚ :=
  if results.isEmpty then 0
  else
    min (((results.map PageResult.confidence).sum / results.length) / 2) 100

/-- When `i ≥ n` the batch loop exits immediately, whatever the fuel. -/
theorem batch_loop_past_end (ocr : Nat → Except String (String × ℚ))
    (n batch_size fuel i : Nat) (h : n ≤ i) :
    batch_loop ocr n batch_size fuel i = [] := by
  cases fuel with
  | zero => rfl
  | succ fuel => simp [batch_loop, Nat.not_lt.mpr h]

/-- With a positive batch size and fuel at least the number of remaining
pages, the batch loop visits exactly the page indices `i, …, n - 1` in
order. -/
theorem batch_loop_eq (ocr : Nat → Except String (String × ℚ))
    (n batch_size : Nat) (hbs : 1 ≤ batch_size) :
    ∀ fuel i, n - i ≤ fuel →
      batch_loop ocr n batch_size fuel i
        = (List.range' i (n - i)).map (process_page ocr) := by
  intro fuel
  induction fuel with
  | zero =>
    intro i hi
    have h0 : n - i = 0 := Nat.le_zero.mp hi
    simp [batch_loop, h0]
  | succ fuel ih =>
    intro i hi
    by_cases hin : i < n
    · rw [batch_loop, if_pos hin, process_batch]
      by_cases hfit : i + batch_size ≤ n
      · rw [ih (i + batch_size) (by omega)]
        rw [← List.map_append]
        have hmin : min (i + batch_size) n - i = batch_size := by omega
        have happ := List.range'_append i batch_size (n - (i + batch_size)) 1
        rw [hmin]
        rw [show i + 1 * batch_size = i + batch_size by omega] at happ
        rw [show n - (i + batch_size) + batch_size = n - i by omega] at happ
        rw [happ]
      · rw [batch_loop_past_end ocr n batch_size fuel (i + batch_size)
          (by omega)]
        have hmin : min (i + batch_size) n - i = n - i := by omega
        rw [hmin, List.append_nil]
    · rw [batch_loop, if_neg hin]
      have h0 : n - i = 0 := by omega
      simp [h0]

/-- The page numbers of `process_page` applied across indices
`0, …, n - 1` are `1, …, n` in order. -/
theorem canon_pages (ocr : Nat → Except String (String × ℚ)) (n : Nat) :
    (((List.range' 0 n).map (process_page ocr)).map PageResult.page)
      = List.range' 1 n := by
  rw [List.map_map]
  have h1 : (PageResult.page ∘ process_page ocr) = (fun i => 1 + i) := by
    funext i
    simp only [Function.comp]
    unfold process_page
    cases ocr i <;> simp <;> omega
  rw [h1]
  simpa using List.map_add_range' 1 0 n 1

/-- Sorting any permutation of the per-page results by page number
recovers the canonical page-ordered list: the page keys `1, …, n` are
distinct, so the sorted arrangement is unique. -/
theorem mergeSort_perm_canon (ocr : Nat → Except String (String × ℚ))
    (n : Nat) (l' : List PageResult)
    (hp : l'.Perm ((List.range' 0 n).map (process_page ocr))) :
    l'.mergeSort (fun a b => a.page ≤ b.page)
      = (List.range' 0 n).map (process_page ocr) := by
  have hperm2 : (l'.mergeSort (fun a b => a.page ≤ b.page)).Perm
      ((List.range' 0 n).map (process_page ocr)) :=
    (List.mergeSort_perm l' _).trans hp
  have hsorted : (l'.mergeSort (fun a b => a.page ≤ b.page)).Pairwise
      (fun a b => (a.page ≤ b.page : Bool) = true) :=
    List.sorted_mergeSort
      (fun (a b c : PageResult) hab hbc => by
        simp only [decide_eq_true_eq] at hab hbc ⊢
        omega)
      (fun (a b : PageResult) => by
        simp only [Bool.or_eq_true, decide_eq_true_eq]
        omega)
      l'
  have hpages : (l'.mergeSort (fun a b => a.page ≤ b.page)).map PageResult.page
      = List.range' 1 n := by
    have hs1 : List.Sorted (· ≤ ·)
        ((l'.mergeSort (fun a b => a.page ≤ b.page)).map PageResult.page) := by
      rw [List.Sorted, List.pairwise_map]
      exact hsorted.imp (fun h => by simpa using h)
    have hs2 : List.Sorted (· ≤ ·) (List.range' 1 n) :=
      (List.pairwise_lt_range' 1 n 1 (by norm_num)).imp le_of_lt
    have hpp : ((l'.mergeSort (fun a b => a.page ≤ b.page)).map
        PageResult.page).Perm (List.range' 1 n) := by
      have h := hperm2.map PageResult.page
      rwa [canon_pages] at h
    exact List.eq_of_perm_of_sorted hpp hs1 hs2
  have hmem : ∀ r ∈ l'.mergeSort (fun a b => a.page ≤ b.page),
      r = process_page ocr (r.page - 1) := by
    intro r hr
    have hrc : r ∈ (List.range' 0 n).map (process_page ocr) :=
      hperm2.mem_iff.mp hr
    rcases List.mem_map.mp hrc with ⟨i, hi, hpe⟩
    subst hpe
    have hpage : (process_page ocr i).page = i + 1 := by
      unfold process_page
      cases ocr i <;> rfl
    rw [hpage]
    simp
  apply List.ext_getElem
  · rw [hperm2.length_eq]
  · intro k h1 h2
    have hlm : k < ((l'.mergeSort (fun a b => a.page ≤ b.page)).map
        PageResult.page).length := by
      simpa using h1
    have hpk : (l'.mergeSort (fun a b => a.page ≤ b.page))[k].page
        = 1 + k := by
      have e1 : ((l'.mergeSort (fun a b => a.page ≤ b.page)).map
          PageResult.page)[k] = (l'.mergeSort (fun a b => a.page ≤ b.page))[k].page :=
        List.getElem_map PageResult.page
      have e2 := List.getElem_of_eq hpages hlm
      rw [e1] at e2
      rw [e2, List.getElem_range']
      omega
    have hrk := hmem _ (List.getElem_mem h1)
    rw [hrk, hpk]
    rw [List.getElem_map, List.getElem_range']
    simp

/-- Claim C9. For every list of `n` page images and every completion order
of the concurrently processed batches (`asyncio.gather` returns results
in submission order, so any interleaving of completions yields some
permutation `l'` of the collected batch results, which
`results.sort(key=...)` at `ocr.py:115` then orders), `ProcessDocument`
returns exactly `n` page results sorted in ascending page-number order,
and a page whose OCR call raises contributes a result with empty text,
confidence `0` and the attached error rather than aborting the
document. -/
theorem C9_process_document_ordered (ocr : Nat → Except String (String × ℚ))
    (n batch_size : Nat) (hbs : 1 ≤ batch_size) (l' : List PageResult)
    (hperm : l'.Perm (batch_loop ocr n batch_size n 0)) :
    l'.mergeSort (fun a b => a.page ≤ b.page) = process_document ocr n batch_size
    ∧ (process_document ocr n batch_size).length = n
    ∧ (process_document ocr n batch_size).map PageResult.page = List.range' 1 n
    ∧ ∀ r ∈ process_document ocr n batch_size, ∀ e,
        ocr (r.page - 1) = Except.error e →
        r.text = "" ∧ r.confidence = 0 ∧ r.error = some e := by
  have hbl : batch_loop ocr n batch_size n 0
      = (List.range' 0 n).map (process_page ocr) := by
    have h := batch_loop_eq ocr n batch_size hbs n 0 (by omega)
    simpa using h
  have hcanon : process_document ocr n batch_size
      = (List.range' 0 n).map (process_page ocr) := by
    rw [process_document, hbl]
    exact mergeSort_perm_canon ocr n _ (List.Perm.refl _)
  have hl : l'.mergeSort (fun a b => a.page ≤ b.page)
      = (List.range' 0 n).map (process_page ocr) :=
    mergeSort_perm_canon ocr n l' (by rwa [hbl] at hperm)
  refine ⟨by rw [hl, hcanon], ?_, ?_, ?_⟩
  · rw [hcanon]
    simp
  · rw [hcanon]
    exact canon_pages ocr n
  · intro r hr e he
    rw [hcanon] at hr
    rcases List.mem_map.mp hr with ⟨i, hi, hpe⟩
    subst hpe
    have hpage : (process_page ocr i).page = i + 1 := by
      unfold process_page
      cases ocr i <;> rfl
    rw [hpage] at he
    simp only [Nat.add_sub_cancel] at he
    simp [process_page, he]

/-- Claim C2, counterexample. For the single-page result list with
per-page confidence `100`, `calculate_confidence` (`ocr.py:118-126`)
returns `50`, not the arithmetic mean `100`: the final
`min(avg_confidence / 2, 100)` rescales the mean. -/
theorem C2_counterexample :
    calculate_confidence [{ text := "t", confidence := 100, page := 1 }] = 50
    ∧ (([({ text := "t", confidence := 100, page := 1 } : PageResult)].map
          PageResult.confidence).sum /
        (([({ text := "t", confidence := 100, page := 1 } : PageResult)].length
          : ℚ))) = 100
    ∧ (50 : ℚ) ≠ 100 := by
  refine ⟨?_, ?_, by norm_num⟩
  · simp [calculate_confidence]
    norm_num
  · norm_num

/-- Claim C2 (amended). For every non-empty list of page results whose
per-page confidences lie in `[0, 100]` (as produced by `process_page`),
the document-level confidence returned by
`OCRProcessor.calculate_confidence` equals **half** the arithmetic mean
of the per-page confidence values (the `min(…, 100)` cap never binds
because the halved mean is at most `50`), not the raw mean. -/
theorem C2_confidence_is_halved_mean (results : List PageResult)
    (hne : results ≠ [])
    (hbound : ∀ r ∈ results, 0 ≤ r.confidence ∧ r.confidence ≤ 100) :
    calculate_confidence results
      = ((results.map PageResult.confidence).sum / results.length) / 2
    ∧ calculate_confidence results ≤ 50 := by
  have hlen : 0 < (results.length : ℚ) := by
    have h := List.length_pos.mpr hne
    exact_mod_cast h
  have hsum : (results.map PageResult.confidence).sum
      ≤ 100 * (results.length : ℚ) := by
    have h := List.sum_le_card_nsmul (results.map PageResult.confidence) 100
      (by
        intro x hx
        rcases List.mem_map.mp hx with ⟨r, hr, hrx⟩
        subst hrx
        exact (hbound r hr).2)
    simpa [nsmul_eq_mul, mul_comm] using h
  have havg : (results.map PageResult.confidence).sum / results.length ≤ 100 := by
    rw [div_le_iff hlen]
    linarith
  have hne2 : ¬ (results.isEmpty = true) := by
    simpa [List.isEmpty_iff] using hne
  have hmin : min (((results.map PageResult.confidence).sum /
        results.length) / 2) 100
      = ((results.map PageResult.confidence).sum / results.length) / 2 := by
    apply min_eq_left
    linarith
  constructor
  · simp only [calculate_confidence, if_neg hne2]
    exact hmin
  · simp only [calculate_confidence, if_neg hne2]
    rw [hmin]
    linarith

/-- Witness for `C9_process_document_ordered`: three pages with batch
size 2, where the OCR of page index 1 raises. -/
theorem C9_witness :
    ((batch_loop (fun i => if i = 1 then Except.error "boom"
          else Except.ok ("w", (80 : ℚ))) 3 2 3 0).mergeSort
        (fun a b => a.page ≤ b.page))
      = process_document (fun i => if i = 1 then Except.error "boom"
          else Except.ok ("w", (80 : ℚ))) 3 2
    ∧ (process_document (fun i => if i = 1 then Except.error "boom"
          else Except.ok ("w", (80 : ℚ))) 3 2).length = 3
    ∧ ((process_document (fun i => if i = 1 then Except.error "boom"
          else Except.ok ("w", (80 : ℚ))) 3 2).map PageResult.page
        = List.range' 1 3)
    ∧ ∀ r ∈ process_document (fun i => if i = 1 then Except.error "boom"
          else Except.ok ("w", (80 : ℚ))) 3 2, ∀ e,
        (fun i => if i = 1 then Except.error "boom"
          else Except.ok ("w", (80 : ℚ))) (r.page - 1) = Except.error e →
        r.text = "" ∧ r.confidence = 0 ∧ r.error = some e :=
  C9_process_document_ordered
    (fun i => if i = 1 then Except.error "boom"
      else Except.ok ("w", (80 : ℚ)))
    3 2 (by norm_num) _ (List.Perm.refl _)

/-- Witness for `C2_confidence_is_halved_mean`: two pages with
confidences 90 and 70; the document confidence is `(160 / 2) / 2 = 40`,
half their mean. -/
theorem C2_witness :
    calculate_confidence [{ text := "a", confidence := 90, page := 1 },
        { text := "b", confidence := 70, page := 2 }]
      = (([({ text := "a", confidence := 90, page := 1 } : PageResult),
          { text := "b", confidence := 70, page := 2 }].map
            PageResult.confidence).sum /
          (([({ text := "a", confidence := 90, page := 1 } : PageResult),
            { text := "b", confidence := 70, page := 2 }].length : ℚ))) / 2
    ∧ calculate_confidence [{ text := "a", confidence := 90, page := 1 },
        { text := "b", confidence := 70, page := 2 }] ≤ 50 :=
  C2_confidence_is_halved_mean
    [{ text := "a", confidence := 90, page := 1 },
     { text := "b", confidence := 70, page := 2 }]
    (by simp)
    (by
      intro r hr
      rcases List.mem_cons.mp hr with h | h
      · subst h
        norm_num
      · rcases List.mem_cons.mp h with h2 | h2
        · subst h2
          norm_num
        · exact absurd h2 (List.not_mem_nil r))

/-- Job status strings of the `ProcessingManager`
(`src/services/ocr-web/app/main.py:185,228,240,255`). -/
inductive JobStatus
  | processing
  | completed
  | error
deriving DecidableEq, Repr

/-- The `page_range` dict attached to each collected chunk result
(`main.py:203-206,216`).  `end` is a Lean keyword, so the second field is
named `end_`. -/
structure PageRange where
  start : Nat
  end_ : Nat
deriving DecidableEq, Repr

/-- One element of `job['results']` (`main.py:214-217`): the processing
agent's payload plus the chunk's page range. -/
structure ChunkResultEntry where
  result : String
  page_range : PageRange
deriving DecidableEq, Repr

/-- One entry of `ProcessingManager.jobs` (`main.py:179-191`). -/
structure Job where
  id : String
  file_name : String
  status : JobStatus
  chunks : List Chunk
  results : List ChunkResultEntry
  completed_chunks : Nat
  total_chunks : Nat
  error : Option String := none
deriving DecidableEq, Repr

/-- Model of `ProcessingManager.create_job` (`main.py:179-191`): a fresh job in
status `processing` with no results, zero completed chunks and
`total_chunks = len(chunks)`. -/
def create_job (job_id file_name : String) (chunks : List Chunk) : Job :=
  { id := job_id, file_name := file_name, status := .processing,
    chunks := chunks, results := [], completed_chunks := 0,
    total_chunks := chunks.length }

/-- What the downstream `POST {PROCESSING_AGENT_URL}/process` call inside
`ProcessingManager.process_chunk` produces for one chunk: either a
successful 200 response with `result['status'] == 'success'` carrying the
payload, or any of the failure paths (non-200 status, agent-reported
failure, network error), all of which land in the `except` block
(`main.py:226-229`). -/
inductive ChunkOutcome
  | success (entry : ChunkResultEntry)
  | failure (msg : String)
deriving DecidableEq, Repr

/-- Model of `ProcessingManager.finalize_job` (`main.py:231-256`) on its success
path: sort the collected results by `page_range['start']` (Python's
stable `list.sort`, modelled by `List.mergeSort`) and mark the job
`completed`.  (The best-effort chunk-file cleanup of `main.py:243-251`
touches only the filesystem, not the job record.) -/
def finalize_job (job : Job) : Job :=
  { job with
      results := job.results.mergeSort
        (fun a b => a.page_range.start ≤ b.page_range.start),
      status := .completed }

/-- One chunk completion recorded by `ProcessingManager.process_chunk`
(`main.py:193-229`): on success, append the result, increment
`completed_chunks`, and — exactly when the incremented count equals
`total_chunks` (`main.py:221-222`) — run `finalize_job`; on failure, set
status `error` and store the message, leaving results and counters
untouched.  The returned flag records whether finalization was triggered
by this completion. -/
def process_chunk (job : Job) (o : ChunkOutcome) : Job × Bool :=
  match o with
  | .success entry =>
    let j1 := { job with results := job.results ++ [entry],
                         completed_chunks := job.completed_chunks + 1 }
    if j1.completed_chunks = j1.total_chunks then (finalize_job j1, true)
    else (j1, false)
  | .failure msg =>
    ({ job with status := .error, error := some msg }, false)

/-- A sequence of chunk completions applied in arrival order, counting how
many of them triggered finalization. -/
def run_chunks (job : Job) (events : List ChunkOutcome) : Job × Nat :=
  match events with
  | [] => (job, 0)
  | e :: rest =>
    let s := process_chunk job e
    let r := run_chunks s.1 rest
    (r.1, (if s.2 then 1 else 0) + r.2)

/-- Whether a chunk completion is a success (only those increment
`completed_chunks`). -/
def ChunkOutcome.isSuccess : ChunkOutcome → Bool
  | .success _ => true
  | .failure _ => false

/-- Endpoint `GET /result/{job_id}` (`main.py:344-358`) for a job present in the
store: any job whose status is not `completed` is answered with HTTP 400
(`Job not completed`); otherwise the id, file name and merged results are
returned. -/
def get_result (job : Job) :
    Except Nat (String × String × List ChunkResultEntry) :=
  if job.status ≠ .completed then .error 400
  else .ok (job.id, job.file_name, job.results)

/-- The step `process_chunk` never changes `total_chunks` (neither branch of
`main.py:193-229` touches it, and `finalize_job` only sorts and sets the
status). -/
theorem process_chunk_total (job : Job) (o : ChunkOutcome) :
    (process_chunk job o).1.total_chunks = job.total_chunks := by
  rcases o with entry | msg <;>
    simp only [process_chunk] <;>
    split_ifs <;>
    simp [finalize_job]

/-- A successful chunk completion increments `completed_chunks` by one
(`main.py:218`). -/
theorem process_chunk_completed_success (job : Job) (entry : ChunkResultEntry) :
    (process_chunk job (.success entry)).1.completed_chunks
      = job.completed_chunks + 1 := by
  simp only [process_chunk]
  split_ifs <;> simp [finalize_job]

/-- A failed chunk completion leaves `completed_chunks` untouched (the
`except` block at `main.py:226-229` only sets status and error). -/
theorem process_chunk_completed_failure (job : Job) (msg : String) :
    (process_chunk job (.failure msg)).1.completed_chunks
      = job.completed_chunks := by
  simp [process_chunk]

/-- A successful completion triggers finalization exactly when the
incremented counter equals `total_chunks` (`main.py:221-222`). -/
theorem process_chunk_flag_success (job : Job) (entry : ChunkResultEntry) :
    (process_chunk job (.success entry)).2
      = decide (job.completed_chunks + 1 = job.total_chunks) := by
  simp only [process_chunk]
  split_ifs with h <;> simp_all

/-- A failed completion never triggers finalization. -/
theorem process_chunk_flag_failure (job : Job) (msg : String) :
    (process_chunk job (.failure msg)).2 = false := by
  simp [process_chunk]

/-- Finalization count over a whole completion sequence: since
`completed_chunks` increases by exactly one per success, the check
`completed_chunks == total_chunks` succeeds on exactly one event of any
run that delivers enough successes — the one on which the counter first
reaches the total — and on none otherwise. -/
theorem run_chunks_fin_count (events : List ChunkOutcome) :
    ∀ job : Job,
      (run_chunks job events).2
        = if job.completed_chunks < job.total_chunks
              ∧ job.total_chunks ≤ job.completed_chunks +
                  events.countP ChunkOutcome.isSuccess
          then 1 else 0 := by
  induction events with
  | nil =>
    intro job
    simp only [run_chunks, List.countP_nil]
    split_ifs with h
    · omega
    · rfl
  | cons e rest ih =>
    intro job
    simp only [run_chunks]
    rw [ih]
    rcases e with entry | msg
    · rw [process_chunk_total, process_chunk_completed_success,
        process_chunk_flag_success, List.countP_cons]
      simp only [ChunkOutcome.isSuccess]
      split_ifs <;> simp_all <;> omega
    · rw [process_chunk_total, process_chunk_completed_failure,
        process_chunk_flag_failure, List.countP_cons]
      simp only [ChunkOutcome.isSuccess]
      split_ifs <;> simp_all <;> omega

/-- Claim C7. For every job and every order in which its chunk completions
arrive (any interleaving of the per-chunk successes with failures),
finalization is triggered exactly once, namely when the completed-chunk
count first reaches the total-chunk count: a full run containing one
success per chunk finalizes exactly once, and every proper prefix whose
success count is still below the total has finalized zero times. -/
theorem C7_finalize_exactly_once (job_id file_name : String)
    (chunks : List Chunk) (events : List ChunkOutcome)
    (hT : 1 ≤ chunks.length)
    (hs : events.countP ChunkOutcome.isSuccess = chunks.length) :
    (run_chunks (create_job job_id file_name chunks) events).2 = 1
    ∧ ∀ p, p.IsPrefix events →
        p.countP ChunkOutcome.isSuccess < chunks.length →
        (run_chunks (create_job job_id file_name chunks) p).2 = 0 := by
  constructor
  · rw [run_chunks_fin_count]
    simp only [create_job]
    split_ifs with h
    · rfl
    · exact absurd ⟨by omega, by omega⟩ h
  · intro p hp hlt
    rw [run_chunks_fin_count]
    simp only [create_job]
    split_ifs with h
    · omega
    · rfl

/-- Witness for `C7_finalize_exactly_once`: a two-chunk job whose chunk
completions arrive in reverse page order. -/
theorem C7_witness :
    (run_chunks (create_job "job" "f.pdf"
        [⟨"c1", [], 1, 2, 2⟩, ⟨"c2", [], 3, 4, 2⟩])
        [ChunkOutcome.success ⟨"late", ⟨3, 4⟩⟩,
         ChunkOutcome.success ⟨"early", ⟨1, 2⟩⟩]).2 = 1
    ∧ ∀ p, p.IsPrefix [ChunkOutcome.success ⟨"late", ⟨3, 4⟩⟩,
          ChunkOutcome.success ⟨"early", ⟨1, 2⟩⟩] →
        p.countP ChunkOutcome.isSuccess <
          ([⟨"c1", [], 1, 2, 2⟩, (⟨"c2", [], 3, 4, 2⟩ : Chunk)]).length →
        (run_chunks (create_job "job" "f.pdf"
            [⟨"c1", [], 1, 2, 2⟩, ⟨"c2", [], 3, 4, 2⟩]) p).2 = 0 :=
  C7_finalize_exactly_once "job" "f.pdf"
    [⟨"c1", [], 1, 2, 2⟩, ⟨"c2", [], 3, 4, 2⟩]
    [ChunkOutcome.success ⟨"late", ⟨3, 4⟩⟩,
     ChunkOutcome.success ⟨"early", ⟨1, 2⟩⟩]
    (by norm_num) (by rfl)

/-- Claim C5, counterexample. A two-chunk job collects the result of its
first chunk, then the second chunk fails, putting the job in status
`error` with the partial result still stored — and `GET /result/{job_id}`
(`main.py:344-358`) answers HTTP 400 (`Job not completed`), so the
collected partial result is *not* retrievable through the result-reading
operation. -/
theorem C5_counterexample :
    (process_chunk (process_chunk
        (create_job "job" "f.pdf" [⟨"c1", [], 1, 2, 2⟩, ⟨"c2", [], 3, 4, 2⟩])
        (ChunkOutcome.success ⟨"part-one", ⟨1, 2⟩⟩)).1
        (ChunkOutcome.failure "processing agent down")).1.results
      = [⟨"part-one", ⟨1, 2⟩⟩]
    ∧ (process_chunk (process_chunk
        (create_job "job" "f.pdf" [⟨"c1", [], 1, 2, 2⟩, ⟨"c2", [], 3, 4, 2⟩])
        (ChunkOutcome.success ⟨"part-one", ⟨1, 2⟩⟩)).1
        (ChunkOutcome.failure "processing agent down")).1.status = .error
    ∧ get_result ((process_chunk (process_chunk
        (create_job "job" "f.pdf" [⟨"c1", [], 1, 2, 2⟩, ⟨"c2", [], 3, 4, 2⟩])
        (ChunkOutcome.success ⟨"part-one", ⟨1, 2⟩⟩)).1
        (ChunkOutcome.failure "processing agent down")).1)
      = .error 400 :=
  ⟨rfl, rfl, rfl⟩

/-- Claim C5 (amended). For every job whose status is `error`, the chunk
results already collected from succeeded chunks remain stored in the job
record — the failure path of `process_chunk` mutates only `status` and
`error`, never `results` — but the result-reading operation
`GET /result/{job_id}` rejects every job whose status is not `completed`
with HTTP 400, so the retained partial results are not retrievable
through it. -/
theorem C5_error_rejected_by_get_result (job : Job) (msg : String) :
    ((process_chunk job (.failure msg)).1.results = job.results
      ∧ (process_chunk job (.failure msg)).1.status = .error
      ∧ (process_chunk job (.failure msg)).1.error = some msg)
    ∧ ∀ j : Job, j.status ≠ .completed → get_result j = .error 400 := by
  refine ⟨⟨?_, ?_, ?_⟩, ?_⟩
  · simp [process_chunk]
  · simp [process_chunk]
  · simp [process_chunk]
  · intro j hj
    simp [get_result, hj]

/-- Witness for `C5_error_rejected_by_get_result`: a one-chunk job whose
only chunk fails. -/
theorem C5_witness :
    ((process_chunk (create_job "job" "f.pdf" [⟨"c1", [], 1, 2, 2⟩])
          (.failure "boom")).1.results
        = (create_job "job" "f.pdf" [⟨"c1", [], 1, 2, 2⟩]).results
      ∧ (process_chunk (create_job "job" "f.pdf" [⟨"c1", [], 1, 2, 2⟩])
          (.failure "boom")).1.status = .error
      ∧ (process_chunk (create_job "job" "f.pdf" [⟨"c1", [], 1, 2, 2⟩])
          (.failure "boom")).1.error = some "boom")
    ∧ ∀ j : Job, j.status ≠ .completed → get_result j = .error 400 :=
  C5_error_rejected_by_get_result
    (create_job "job" "f.pdf" [⟨"c1", [], 1, 2, 2⟩]) "boom"

/-- Model of `shutil.rmtree(temp_dir, ignore_errors=True)` in the `finally` block
of `temporary_directory` (`main.py:57-68`): every path at or under `dir`
disappears from the filesystem. -/
def rmtree (fs : List FsPath) (dir : FsPath) : List FsPath :=
  fs.filter (fun p => ! dir.isPrefixOf p)

/-- What one successful `POST /upload` request (`main.py:261-323`) leaves
behind at the instant its handler returns: the created job, the
background tasks queued by `background_tasks.add_task`
(`main.py:301-306`), and the filesystem contents.  FastAPI runs the
queued background tasks only *after* the handler has returned the
response, so each `process_chunk` task executes against a filesystem
that extends `fs_on_return`. -/
structure UploadOutcome where
  job : Job
  tasks : List (String × Chunk)
  fs_on_return : List FsPath
deriving Repr

/-- The `/upload` handler (`main.py:292-312`) on its success path, given
an initial filesystem `fs0`: inside `temporary_directory()` the chunker
writes one file per chunk under `temp_dir`, `create_job` registers the
job, each chunk is queued as a background `process_chunk` task — and on
exit of the `with` block, `shutil.rmtree` deletes `temp_dir` and
everything under it, before any queued task runs.  (The separate uploaded
`NamedTemporaryFile`, which the handler also removes, is outside
`temp_dir` and not modelled.) -/
def upload_file (ids : Nat → String) (job_id file_name : String)
    (fs0 : List FsPath) (temp_dir : FsPath)
    (total_pages chunk_size overlap : Nat) : UploadOutcome :=
  let chunks := chunkerProcess ids temp_dir total_pages chunk_size overlap
  let fs1 := fs0 ++ chunks.map Chunk.path
  let job := create_job job_id file_name chunks
  let tasks := chunks.map (fun c => (job_id, c))
  let fs2 := rmtree fs1 temp_dir
  { job := job, tasks := tasks, fs_on_return := fs2 }

/-- Every chunk file the sliding-window loop writes lives under the
chunk directory: its path is `chunk_dir ++ [uuid, "chunk.pdf"]`
(`main.py:134-138`). -/
theorem chunkLoop_path_prefix (ids : Nat → String) (dir : FsPath)
    (N cs ov i start : Nat) (b : Bool) :
    ∀ c ∈ chunkLoop ids dir N cs ov i start b, dir.isPrefixOf c.path = true := by
  intro c hc
  rw [chunkLoop] at hc
  by_cases h1 : start < N
  · rw [dif_pos h1] at hc
    by_cases h2 : min (start + cs) N - start < 2 ∧ b = true
    · rw [if_pos h2] at hc
      exact absurd hc (List.not_mem_nil c)
    · rw [if_neg h2] at hc
      rcases List.mem_cons.mp hc with h | h
      · subst h
        exact List.isPrefixOf_iff_prefix.mpr (List.prefix_append dir _)
      · exact chunkLoop_path_prefix ids dir N cs ov (i + 1)
          (start + max 1 (cs - ov)) true c h
  · rw [dif_neg h1] at hc
    exact absurd hc (List.not_mem_nil c)
termination_by N - start
decreasing_by
  have hstep : 1 ≤ max 1 (cs - ov) := le_max_left 1 _
  omega

/-- Every chunk file `PDFChunker.process` writes lives under the chunk
directory (`main.py:98-101,134-138`). -/
theorem chunkerProcess_path_prefix (ids : Nat → String) (dir : FsPath)
    (N cs ov : Nat) :
    ∀ c ∈ chunkerProcess ids dir N cs ov, dir.isPrefixOf c.path = true := by
  intro c hc
  rw [chunkerProcess] at hc
  by_cases hsmall : N ≤ cs
  · rw [if_pos hsmall] at hc
    rcases List.mem_cons.mp hc with h | h
    · subst h
      exact List.isPrefixOf_iff_prefix.mpr (List.prefix_append dir _)
    · exact absurd h (List.not_mem_nil c)
  · rw [if_neg hsmall] at hc
    exact chunkLoop_path_prefix ids dir N cs ov 0 0 false c hc

/-- Claim C4. For every upload that returns successfully from
`POST /upload`, the per-job chunk working directory — and with it every
chunk's backing file recorded in `chunk['path']` — is deleted when the
request handler exits its `temporary_directory` block, which happens
before any background `process_chunk` task for that job runs: every chunk
is dispatched with a backing-file path that no longer exists in the
filesystem the task will see. -/
theorem C4_chunk_files_gone_when_tasks_run (ids : Nat → String)
    (job_id file_name : String) (fs0 : List FsPath) (temp_dir : FsPath)
    (N cs ov : Nat) :
    ∀ t ∈ (upload_file ids job_id file_name fs0 temp_dir N cs ov).tasks,
      t.2.path ∉
        (upload_file ids job_id file_name fs0 temp_dir N cs ov).fs_on_return := by
  intro t ht hmem
  have hc : t.2 ∈ chunkerProcess ids temp_dir N cs ov := by
    rcases List.mem_map.mp ht with ⟨c, hc, hce⟩
    subst hce
    exact hc
  have hpre := chunkerProcess_path_prefix ids temp_dir N cs ov t.2 hc
  have hfil := (List.mem_filter.mp hmem).2
  rw [hpre] at hfil
  exact absurd hfil (by decide)

/-- Witness for `C4_chunk_files_gone_when_tasks_run`: a 2-page upload
producing a single chunk; its queued task's path is absent from the
returned filesystem. -/
theorem C4_witness :
    ("job", (⟨"c", ["tmp", "ocr_1", "c", "chunk.pdf"], 1, 2, 2⟩ : Chunk))
      ∈ (upload_file (fun _ => "c") "job" "f.pdf" [] ["tmp", "ocr_1"]
          2 20 2).tasks
    ∧ (⟨"c", ["tmp", "ocr_1", "c", "chunk.pdf"], 1, 2, 2⟩ : Chunk).path ∉
        (upload_file (fun _ => "c") "job" "f.pdf" [] ["tmp", "ocr_1"]
          2 20 2).fs_on_return :=
  ⟨by decide,
   C4_chunk_files_gone_when_tasks_run (fun _ => "c") "job" "f.pdf" []
     ["tmp", "ocr_1"] 2 20 2
     ("job", ⟨"c", ["tmp", "ocr_1", "c", "chunk.pdf"], 1, 2, 2⟩)
     (by decide)⟩

/-- Status strings stored in `config.job_progress[job_id]['status']`
(`src/services/ocr-engine/app/routes.py:108,139`). -/
inductive ProgressStatus
  | processing
  | completed
deriving DecidableEq, Repr

/-- One entry of the progress store `config.job_progress`
(`routes.py:105-111`), restricted to the fields `GET /progress/{job_id}`
reads (the timestamps and ETA do not affect the percentage). -/
structure ProgressState where
  total_pages : Nat
  processed_pages : Nat
  status : ProgressStatus
deriving DecidableEq, Repr

/-- The `ProgressResponse` model (`app/models.py:36-42`), restricted to
the same fields. -/
structure ProgressResponse where
  total_pages : Nat
  processed_pages : Nat
  status : ProgressStatus
  progress_percentage : ℚ
deriving DecidableEq, Repr

/-- Endpoint `GET /progress/{job_id}` (`routes.py:171-185`) for a job present in
the store: `progress_percentage` is computed as
`processed_pages / total_pages * 100` with no clamping; when
`total_pages = 0` the bare division raises `ZeroDivisionError` (there is
no guard), modelled as `none`. -/
def get_progress (p : ProgressState) : Option ProgressResponse :=
  if p.total_pages = 0 then none
  else
    some { total_pages := p.total_pages,
           processed_pages := p.processed_pages,
           status := p.status,
           progress_percentage :=
             (p.processed_pages : ℚ) / p.total_pages * 100 }

/-- The progress states reachable for one job along `/extract`
(`routes.py:104-140`): created with `total_pages = 0`
(`routes.py:105-111`), then `total_pages` set to the page count
(`routes.py:118`), then incremented by the `update_progress` callback
once per completed batch (`routes.py:121-123`; the side condition
`c + k ≤ n` holds because the batch sizes of `process_document` sum to
the page count), and finally marked `completed` (`routes.py:139`) once
every page is processed. -/
inductive ProgressReachable : ProgressState → Prop
  | init : ProgressReachable ⟨0, 0, .processing⟩
  | set_total (n : Nat) : ProgressReachable ⟨0, 0, .processing⟩ →
      ProgressReachable ⟨n, 0, .processing⟩
  | update (n c k : Nat) : ProgressReachable ⟨n, c, .processing⟩ →
      c + k ≤ n → ProgressReachable ⟨n, c + k, .processing⟩
  | complete (n c : Nat) : ProgressReachable ⟨n, c, .processing⟩ →
      c = n → ProgressReachable ⟨n, c, .completed⟩

/-- In every reachable progress state, `processed_pages` never exceeds
`total_pages`. -/
theorem progress_reachable_le (p : ProgressState) (h : ProgressReachable p) :
    p.processed_pages ≤ p.total_pages := by
  induction h with
  | init => exact Nat.le_refl 0
  | set_total n h ih => exact Nat.zero_le n
  | update n c k h hk ih => exact hk
  | complete n c h hc ih => exact ih

/-- Claim C6, counterexample. Two reachable progress states refute the
claim: the freshly created record (`routes.py:105-111`) has
`total_pages = 0`, where `processed / total * 100` raises
`ZeroDivisionError` — the computation fails instead of never failing;
and after the last batch callback but before `routes.py:139` runs, a job
reports `progress_percentage = 100` while its status is still
`processing`. -/
theorem C6_counterexample :
    get_progress ⟨0, 0, .processing⟩ = none
    ∧ ProgressReachable ⟨0, 0, .processing⟩
    ∧ (∃ r, get_progress ⟨5, 5, .processing⟩ = some r
        ∧ r.progress_percentage = 100
        ∧ r.status ≠ .completed)
    ∧ ProgressReachable ⟨5, 5, .processing⟩ := by
  refine ⟨rfl, ProgressReachable.init, ⟨_, rfl, ?_, by decide⟩, ?_⟩
  · show ((5 : Nat) : ℚ) / ((5 : Nat) : ℚ) * 100 = 100
    norm_num
  · have h := ProgressReachable.update 5 0 5
      (ProgressReachable.set_total 5 ProgressReachable.init) (by norm_num)
    simpa using h

/-- Claim C6 (amended). For every tracked job and every reachable progress
state: when `total_pages = 0` (the state every job starts in) the
percentage computation fails with a division error; when
`total_pages > 0` it returns exactly `processed / total * 100` with no
clamping applied — a value that nevertheless lies in `[0, 100]` because
reachable states satisfy `processed_pages ≤ total_pages`.  A reported
value of 100 does *not* imply the job is `completed` (see the
counterexample). -/
theorem C6_progress_percentage (p : ProgressState) (h : ProgressReachable p) :
    (p.total_pages = 0 → get_progress p = none)
    ∧ (0 < p.total_pages →
        ∃ r, get_progress p = some r
          ∧ r.progress_percentage
              = (p.processed_pages : ℚ) / p.total_pages * 100
          ∧ 0 ≤ r.progress_percentage ∧ r.progress_percentage ≤ 100) := by
  have hle := progress_reachable_le p h
  constructor
  · intro h0
    simp [get_progress, h0]
  · intro hpos
    have hne : ¬ (p.total_pages = 0) := by omega
    refine ⟨_, by rw [get_progress, if_neg hne], rfl, ?_, ?_⟩
    · have h1 : (0 : ℚ) ≤ (p.processed_pages : ℚ) := by positivity
      have h2 : (0 : ℚ) ≤ (p.total_pages : ℚ) := by positivity
      positivity
    · have htq : (0 : ℚ) < (p.total_pages : ℚ) := by exact_mod_cast hpos
      have hcq : (p.processed_pages : ℚ) ≤ (p.total_pages : ℚ) := by
        exact_mod_cast hle
      have hdiv : (p.processed_pages : ℚ) / p.total_pages ≤ 1 := by
        rw [div_le_one htq]
        exact hcq
      nlinarith

/-- Witness for `C6_progress_percentage`: a 10-page job with 5 pages
processed. -/
theorem C6_witness :
    ((⟨10, 5, .processing⟩ : ProgressState).total_pages = 0 →
      get_progress ⟨10, 5, .processing⟩ = none)
    ∧ (0 < (⟨10, 5, .processing⟩ : ProgressState).total_pages →
        ∃ r, get_progress ⟨10, 5, .processing⟩ = some r
          ∧ r.progress_percentage
              = (((⟨10, 5, .processing⟩ : ProgressState).processed_pages : ℚ) /
                  (⟨10, 5, .processing⟩ : ProgressState).total_pages * 100)
          ∧ 0 ≤ r.progress_percentage ∧ r.progress_percentage ≤ 100) :=
  C6_progress_percentage ⟨10, 5, .processing⟩
    (ProgressReachable.update 10 0 5
      (ProgressReachable.set_total 10 ProgressReachable.init) (by norm_num))
